import Mathlib

/-!
Verification of the comment-synchronization core of the notion-AI-Assistant
repository, as a shallow embedding in Lean 4.

The embedding follows the Python source:

* `RawComment` models a raw comment payload from the Notion API (the dicts
  consumed by the services and by `app.py`).  Timestamps are modelled as
  `Option Nat`: `none` stands for an absent (or unparseable) field, `some t`
  for an instant; `datetime` comparison and ISO-string comparison are both
  order-embeddings into `Nat`.
* `Comment` models a stored row (`src/models/database.py`, class `Comment`),
  and a store is a `List Comment` (rows in insertion order; `query.get`
  is first-match lookup by primary key).
* `CommentService` models `src/models/comment_service.py`.  The SQLAlchemy
  session is modelled by explicit state passing: during a batch the working
  store carries pending changes (SQLAlchemy autoflush makes them visible to
  in-batch reads), `commit` returns the working store, `rollback` returns
  the store from before the call.  The persistence layer may raise on any
  per-record call; this transient-failure nondeterminism is exposed as an
  oracle `failOn : String → Bool` telling for which comment id the store
  errors during that record's query.  The NOT NULL column constraints of
  `database.py` (enforced by the database at flush/commit) are modelled by
  `CommentService.commitOk`, and `save_comments_to_db_constrained` is the
  commit path refined with that check.
* `SupabaseDb` / `SupabaseCommentService` model the query path of
  `src/models/supabase_db.py` and `src/models/supabase_comment_service.py`.
* `App` models the in-memory pipeline of `src/app.py`: the global
  `processed_comments` set (a `List String`), `process_comment_async`
  (its effect on that set, with the collaborator outcome as a `Bool`),
  `get_unprocessed_comments`, and `organize_comments_by_parent_and_thread`.
-/

/-- The `parent` field of a raw Notion comment payload: a dict carrying a
`page_id` key, a `block_id` key, or neither (`other`); `none` at the use
sites models a payload with no `parent` key at all. -/
inductive ParentField where
  | page (id : String)
  | block (id : String)
  | other
  deriving DecidableEq

/-- A raw comment payload from the Notion API.  `rich_text` holds the
already-extracted `text.content` of each rich-text entry (`""` when the
entry has no content); the services only read the first entry. -/
structure RawComment where
  id : String
  discussion_id : Option String := none
  parent : Option ParentField := none
  rich_text : List String := []
  created_time : Option Nat := none
  last_edited_time : Option Nat := none
  created_by : Option String := none
  deriving DecidableEq

/-- Parent extraction shared by both services (`comment_service.py` lines
36-44, `supabase_comment_service.py` lines 36-44): `page_id` is checked
before `block_id`; with no parent or an unrecognized one both stay `None`. -/
def parentTypeAndId (c : RawComment) : Option String × Option String :=
  match c.parent with
  | some (ParentField.page i) => (some "page", some i)
  | some (ParentField.block i) => (some "block", some i)
  | _ => (none, none)

/-- Text extraction (`comment_service.py` lines 46-49): the content of the
first rich-text entry, `""` when the list is absent or empty. -/
def plainTextOf (c : RawComment) : String :=
  match c.rich_text with
  | [] => ""
  | t :: _ => t

/-- A stored row, following the SQLAlchemy model `Comment` in
`src/models/database.py`.  `parent_type`/`parent_id` are `Option` because
the ORM object layer holds whatever the service assigns — the service
writes `None` into them for payloads without a parent — while the table
declares both columns `nullable=False` (`database.py` lines 15-16): that
constraint is enforced by the database when the row is flushed, modelled
by `CommentService.commitOk` below. -/
structure Comment where
  id : String
  discussion_id : Option String := none
  parent_type : Option String := none
  parent_id : Option String := none
  plain_text : String := ""
  created_time : Nat := 0
  last_edited_time : Option Nat := none
  created_by_id : Option String := none
  status : String := "new"
  processed_at : Option Nat := none
  deriving DecidableEq

/-- The dict returned by `save_comments_to_db`: counts plus an optional
`"error"` key. -/
structure SaveResult where
  new : Nat := 0
  updated : Nat := 0
  unchanged : Nat := 0
  error : Option String := none
  deriving DecidableEq

namespace CommentService

/-- `Comment.query.get(comment_id)`: first-match primary-key lookup. -/
def findComment (store : List Comment) (cid : String) : Option Comment :=
  store.find? (fun r => r.id == cid)

/-- Mutation of the single row object returned by `query.get`: rewrite the
first row whose id matches, leave every other row untouched. -/
def updateFirst (store : List Comment) (cid : String) (f : Comment → Comment) : List Comment :=
  match store with
  | [] => []
  | r :: rs => if r.id == cid then f r :: rs else r :: updateFirst rs cid f

/-- The row inserted for a first-seen comment (`comment_service.py` lines
72-84): all fields extracted from the payload, `status = 'new'`. -/
def mkNewComment (c : RawComment) (created_time : Nat) : Comment :=
  { id := c.id, discussion_id := c.discussion_id,
    parent_type := (parentTypeAndId c).1, parent_id := (parentTypeAndId c).2,
    plain_text := plainTextOf c, created_time := created_time,
    last_edited_time := c.last_edited_time, created_by_id := c.created_by,
    status := "new", processed_at := none }

/-- One iteration of the loop body of `save_comments_to_db`
(`comment_service.py` lines 30-98).  Exceptions propagate as `Except.error`:
`datetime.fromisoformat` raises when `created_time` is absent/unparseable
(line 52), and the persistence layer may raise on this record's query
(oracle `failOn`).  Otherwise the record is classified new / updated /
unchanged exactly as in the source. -/
def processOne (failOn : String → Bool) (store : List Comment) (counts : SaveResult)
    (c : RawComment) : Except String (List Comment × SaveResult) :=
  match c.created_time with
  | none => Except.error "Invalid isoformat string"
  | some created_time =>
    if failOn c.id then Except.error "database error"
    else
      match findComment store c.id with
      | none =>
          Except.ok (store ++ [mkNewComment c created_time],
            { counts with new := counts.new + 1 })
      | some existing =>
          match existing.last_edited_time, c.last_edited_time with
          | some te, some tc =>
              if te < tc then
                Except.ok (updateFirst store c.id (fun r =>
                    { r with plain_text := plainTextOf c,
                             last_edited_time := some tc, status := "updated" }),
                  { counts with updated := counts.updated + 1 })
              else Except.ok (store, { counts with unchanged := counts.unchanged + 1 })
          | _, _ => Except.ok (store, { counts with unchanged := counts.unchanged + 1 })

/-- The whole `for` loop of `save_comments_to_db`: thread the working store
and counts through `processOne`; the first exception aborts the loop. -/
def processBatch (failOn : String → Bool) (comments : List RawComment)
    (store : List Comment) (counts : SaveResult) :
    Except String (List Comment × SaveResult) :=
  match comments with
  | [] => Except.ok (store, counts)
  | c :: rest =>
      match processOne failOn store counts c with
      | Except.ok (store', counts') => processBatch failOn rest store' counts'
      | Except.error e => Except.error e

/-- `CommentService.save_comments_to_db` (`comment_service.py` lines 13-105):
run the loop inside `try`; on success `db.session.commit()` makes the
working store durable; on any exception `db.session.rollback()` restores
the store from before the call and the function returns zero counts with
an `"error"` key.  No exception escapes.  This model lets the commit
succeed whenever the loop does, which is the behaviour whenever every
working row satisfies the NOT NULL column constraints of `database.py`;
`save_comments_to_db_constrained` below refines it with the
database-enforced constraint check (`IntegrityError` on flush of a row
with a NULL `parent_type`/`parent_id`). -/
def save_comments_to_db (failOn : String → Bool) (comments : List RawComment)
    (store : List Comment) : List Comment × SaveResult :=
  match processBatch failOn comments store { new := 0, updated := 0, unchanged := 0 } with
  | Except.ok (store', counts) => (store', counts)
  | Except.error e =>
      (store, { new := 0, updated := 0, unchanged := 0, error := some e })

/-- `CommentService.get_new_comments` (`comment_service.py` line 115):
`Comment.query.filter_by(status='new').all()`. -/
def get_new_comments (store : List Comment) : List Comment :=
  store.filter (fun r => r.status == "new")

end CommentService

namespace SupabaseDb

/-- `get_comments` in `src/models/supabase_db.py` (lines 167-199): chain of
equality filters, each applied only when the argument is truthy (`none`
models a falsy Python argument). -/
def get_comments (store : List Comment) (discussion_id parent_id status : Option String) :
    List Comment :=
  let q := store
  let q := match discussion_id with
    | some d => q.filter (fun r => r.discussion_id == some d)
    | none => q
  let q := match parent_id with
    | some p => q.filter (fun r => r.parent_id == some p)
    | none => q
  match status with
  | some st => q.filter (fun r => r.status == st)
  | none => q

end SupabaseDb

namespace SupabaseCommentService

/-- `SupabaseCommentService.get_new_comments`
(`supabase_comment_service.py` line 107): `get_comments(None, None, "new")`. -/
def get_new_comments (store : List Comment) : List Comment :=
  SupabaseDb.get_comments store none none (some "new")

end SupabaseCommentService

/-- A stored row with status `'updated'`, as `save_comments_to_db` produces
after observing an edit (used as the C1 counterexample input). -/
def updatedStoredComment : Comment :=
  { id := "c1", discussion_id := none, parent_type := some "page",
    parent_id := some "p1", plain_text := "hi there", created_time := 1,
    last_edited_time := some 2, created_by_id := none, status := "updated",
    processed_at := none }

/-- C1 counterexample: a store holding one record whose status is
`'updated'`.  The record has status in the set the claim requires to be
selected, yet neither `CommentService.get_new_comments` nor
`SupabaseCommentService.get_new_comments` returns it: the dispatch
selection does not return every stored record whose status is `'new'` or
`'updated'`. -/
theorem select_pending_misses_updated_cex :
    updatedStoredComment ∈ [updatedStoredComment]
    ∧ (updatedStoredComment.status = "new" ∨ updatedStoredComment.status = "updated")
    ∧ updatedStoredComment ∉ CommentService.get_new_comments [updatedStoredComment]
    ∧ updatedStoredComment ∉ SupabaseCommentService.get_new_comments [updatedStoredComment] := by
  refine ⟨List.mem_singleton.mpr rfl, Or.inr rfl, ?_, ?_⟩ <;> decide

/-- C1 amended: both `get_new_comments` implementations return exactly the
stored records whose status is `'new'`: every returned record has status
`'new'`, every stored record with status `'new'` is returned, and records
with status `'updated'`, `'processed'` or `'error'` are never returned. -/
theorem select_pending_returns_exactly_status_new :
    ∀ (store : List Comment) (r : Comment),
      (r ∈ CommentService.get_new_comments store ↔ r ∈ store ∧ r.status = "new")
      ∧ (r ∈ SupabaseCommentService.get_new_comments store ↔ r ∈ store ∧ r.status = "new") := by
  intro store r
  constructor
  · simp [CommentService.get_new_comments, List.mem_filter]
  · simp [SupabaseCommentService.get_new_comments, SupabaseDb.get_comments, List.mem_filter]

namespace CommentService

/-- "not strictly newer": the update guard of `save_comments_to_db` line 88
fails, i.e. it is not the case that both timestamps are present with the
incoming one strictly greater. -/
def notNewer (stored incoming : Option Nat) : Prop :=
  match stored, incoming with
  | some te, some tc => ¬ te < tc
  | _, _ => True

theorem findComment_eq_none {store : List Comment} {cid : String} :
    findComment store cid = none ↔ ∀ r ∈ store, r.id ≠ cid := by
  simp [findComment, List.find?_eq_none]

theorem findComment_append_right {store : List Comment} {cid : String} (r : Comment)
    (h : findComment store cid = none) (hid : r.id = cid) :
    findComment (store ++ [r]) cid = some r := by
  unfold findComment at h ⊢
  induction store with
  | nil => simp [List.find?, hid]
  | cons a rest ih =>
      simp only [List.cons_append, List.find?]
      cases ha : (a.id == cid) with
      | true => rw [List.find?] at h; rw [ha] at h; cases h
      | false =>
          apply ih
          rw [List.find?, ha] at h
          exact h

theorem findComment_updateFirst_self {store : List Comment} {cid : String} {ex : Comment}
    (f : Comment → Comment) (hf : ∀ r, (f r).id = r.id)
    (h : findComment store cid = some ex) :
    findComment (updateFirst store cid f) cid = some (f ex) := by
  unfold findComment at h ⊢
  induction store with
  | nil => cases h
  | cons a rest ih =>
      rw [List.find?] at h
      cases ha : (a.id == cid) with
      | true =>
          rw [ha] at h
          injection h with hae
          subst hae
          rw [updateFirst, if_pos ha, List.find?]
          have hfa : ((f a).id == cid) = true := by rw [hf a]; exact ha
          rw [hfa]
      | false =>
          rw [ha] at h
          rw [updateFirst, if_neg (by simp [ha]), List.find?, ha]
          exact ih h

theorem findComment_updateFirst_ne {store : List Comment} {cid cid' : String}
    (f : Comment → Comment) (hf : ∀ r, (f r).id = r.id) (h : cid ≠ cid') :
    findComment (updateFirst store cid f) cid' = findComment store cid' := by
  unfold findComment
  induction store with
  | nil => rfl
  | cons a rest ih =>
      rw [updateFirst]
      by_cases ha : (a.id == cid) = true
      · rw [if_pos ha, List.find?, List.find?]
        have hane : ((f a).id == cid') = (a.id == cid') := by rw [hf a]
        rw [hane]
        cases hac : (a.id == cid') with
        | true =>
            exfalso
            exact h (by rw [← (beq_iff_eq).mp ha, (beq_iff_eq).mp hac])
        | false => rfl
      · rw [if_neg ha, List.find?, List.find?]
        cases hac : (a.id == cid') with
        | true => rfl
        | false => exact ih

theorem ids_updateFirst {store : List Comment} {cid : String}
    (f : Comment → Comment) (hf : ∀ r, (f r).id = r.id) :
    (updateFirst store cid f).map Comment.id = store.map Comment.id := by
  induction store with
  | nil => rfl
  | cons a rest ih =>
      rw [updateFirst]
      by_cases ha : (a.id == cid) = true
      · rw [if_pos ha]; simp [hf a]
      · rw [if_neg ha]; simp [ih]

end CommentService

namespace CommentService

/-- Inversion of a successful `processOne`: the timestamp parsed, the store
did not error on this record, and the record took exactly one of the three
branches of the loop body (insert / in-place update / untouched). -/
theorem processOne_ok_inv {failOn : String → Bool} {store : List Comment}
    {counts : SaveResult} {c : RawComment} {s' : List Comment} {counts' : SaveResult}
    (h : processOne failOn store counts c = Except.ok (s', counts')) :
    ∃ ct, c.created_time = some ct ∧ failOn c.id = false ∧
      ((findComment store c.id = none ∧ s' = store ++ [mkNewComment c ct] ∧
          counts' = { counts with new := counts.new + 1 })
       ∨ (∃ ex te tc, findComment store c.id = some ex ∧
            ex.last_edited_time = some te ∧ c.last_edited_time = some tc ∧ te < tc ∧
            s' = updateFirst store c.id (fun r =>
              { r with plain_text := plainTextOf c, last_edited_time := some tc,
                       status := "updated" }) ∧
            counts' = { counts with updated := counts.updated + 1 })
       ∨ (∃ ex, findComment store c.id = some ex ∧
            notNewer ex.last_edited_time c.last_edited_time ∧
            s' = store ∧ counts' = { counts with unchanged := counts.unchanged + 1 })) := by
  unfold processOne at h
  split at h
  · cases h
  · rename_i ct hct
    split at h
    · cases h
    · rename_i hfo
      have hfo' : failOn c.id = false := by simpa using hfo
      refine ⟨ct, hct, hfo', ?_⟩
      split at h
      · rename_i hfind
        simp only [Except.ok.injEq, Prod.mk.injEq] at h
        exact Or.inl ⟨hfind, h.1.symm, h.2.symm⟩
      · rename_i existing hfind
        split at h
        · rename_i te tc hte htc
          split at h
          · rename_i hlt
            simp only [Except.ok.injEq, Prod.mk.injEq] at h
            exact Or.inr (Or.inl ⟨existing, te, tc, hfind, hte, htc, hlt,
              h.1.symm, h.2.symm⟩)
          · rename_i hlt
            simp only [Except.ok.injEq, Prod.mk.injEq] at h
            refine Or.inr (Or.inr ⟨existing, hfind, ?_, h.1.symm, h.2.symm⟩)
            unfold notNewer
            rw [hte, htc]
            exact hlt
        · rename_i hwild
          simp only [Except.ok.injEq, Prod.mk.injEq] at h
          refine Or.inr (Or.inr ⟨existing, hfind, ?_, h.1.symm, h.2.symm⟩)
          unfold notNewer
          cases hex : existing.last_edited_time with
          | none => trivial
          | some te =>
            cases hcl : c.last_edited_time with
            | none => trivial
            | some tc => exact (hwild te tc hex hcl).elim

end CommentService

/-- C2: the per-record behaviour of `save_comments_to_db`.  For each record
of a batch, processed against the store state at its turn with a parseable
`created_time` and no transient store failure: if no stored row has its id,
a row with status `'new'` and the payload's fields is appended (and found by
a subsequent primary-key lookup) and the record is counted as new; if a row
exists and both `last_edited_time` values are present with the incoming one
strictly greater, that row's text and `last_edited_time` are overwritten,
its status becomes `'updated'`, and the record is counted as updated; in
every other case (including any absent `last_edited_time`) the store is
left untouched and the record is counted as unchanged. -/
theorem save_comments_per_record_cases (failOn : String → Bool)
    (store : List Comment) (counts : SaveResult) (c : RawComment) (ct : Nat)
    (hct : c.created_time = some ct) (hf : failOn c.id = false) :
    (CommentService.findComment store c.id = none →
        CommentService.processOne failOn store counts c =
          Except.ok (store ++ [CommentService.mkNewComment c ct],
            { counts with new := counts.new + 1 })
        ∧ CommentService.findComment (store ++ [CommentService.mkNewComment c ct]) c.id =
            some (CommentService.mkNewComment c ct)
        ∧ (CommentService.mkNewComment c ct).status = "new")
    ∧ (∀ ex te tc, CommentService.findComment store c.id = some ex →
        ex.last_edited_time = some te → c.last_edited_time = some tc → te < tc →
        CommentService.processOne failOn store counts c =
          Except.ok (CommentService.updateFirst store c.id (fun r =>
              { r with plain_text := plainTextOf c, last_edited_time := some tc,
                       status := "updated" }),
            { counts with updated := counts.updated + 1 })
        ∧ CommentService.findComment (CommentService.updateFirst store c.id (fun r =>
              { r with plain_text := plainTextOf c, last_edited_time := some tc,
                       status := "updated" })) c.id =
            some { ex with plain_text := plainTextOf c, last_edited_time := some tc,
                           status := "updated" })
    ∧ (∀ ex, CommentService.findComment store c.id = some ex →
        CommentService.notNewer ex.last_edited_time c.last_edited_time →
        CommentService.processOne failOn store counts c =
          Except.ok (store, { counts with unchanged := counts.unchanged + 1 })) := by
  refine ⟨?_, ?_, ?_⟩
  · intro hfind
    refine ⟨?_, ?_, rfl⟩
    · simp [CommentService.processOne, hct, hf, hfind]
    · exact CommentService.findComment_append_right _ hfind rfl
  · intro ex te tc hfind hte htc hlt
    constructor
    · simp [CommentService.processOne, hct, hf, hfind, hte, htc, hlt]
    · exact CommentService.findComment_updateFirst_self _ (fun r => rfl) hfind
  · intro ex hfind hnn
    unfold CommentService.notNewer at hnn
    cases hte : ex.last_edited_time with
    | none => simp [CommentService.processOne, hct, hf, hfind, hte]
    | some te =>
      cases htc : c.last_edited_time with
      | none => simp [CommentService.processOne, hct, hf, hfind, hte, htc]
      | some tc =>
        rw [hte, htc] at hnn
        simp [CommentService.processOne, hct, hf, hfind, hte, htc, hnn]

/-- A well-formed payload: page parent, one rich-text entry, parseable
`created_time`. -/
def goodPayload : RawComment :=
  { id := "cgood", discussion_id := none, parent := some (ParentField.page "p1"),
    rich_text := ["hi"], created_time := some 1, last_edited_time := none,
    created_by := none }

/-- A payload whose id the persistence layer errors on (transient store
failure while this record is being looked up). -/
def failingPayload : RawComment :=
  { id := "cbad", discussion_id := none, parent := some (ParentField.page "p1"),
    rich_text := ["boom"], created_time := some 1, last_edited_time := none,
    created_by := none }

/-- A payload with an absent `created_time`: `datetime.fromisoformat('')`
raises inside the loop. -/
def unparseablePayload : RawComment :=
  { id := "cparse", discussion_id := none, parent := some (ParentField.page "p1"),
    rich_text := ["x"], created_time := none, last_edited_time := none,
    created_by := none }

/-- C2 witness: the three cases of `save_comments_per_record_cases`
exercised at concrete inputs — an empty store inserts `goodPayload` as new;
a store holding the result with an older edit stamp gets updated by a
strictly newer edit; an identical re-delivery is unchanged. -/
theorem save_comments_per_record_cases_witness :
    (CommentService.processOne (fun _ => false) [] { new := 0, updated := 0, unchanged := 0 }
        goodPayload =
      Except.ok ([CommentService.mkNewComment goodPayload 1],
        { new := 1, updated := 0, unchanged := 0 }))
    ∧ (CommentService.processOne (fun _ => false)
        [{ CommentService.mkNewComment goodPayload 1 with last_edited_time := some 2 }]
        { new := 0, updated := 0, unchanged := 0 }
        { goodPayload with last_edited_time := some 3, rich_text := ["hi there"] } =
      Except.ok ([{ CommentService.mkNewComment goodPayload 1 with
            plain_text := "hi there", last_edited_time := some 3, status := "updated" }],
        { new := 0, updated := 1, unchanged := 0 }))
    ∧ (CommentService.processOne (fun _ => false)
        [CommentService.mkNewComment goodPayload 1]
        { new := 0, updated := 0, unchanged := 0 } goodPayload =
      Except.ok ([CommentService.mkNewComment goodPayload 1],
        { new := 0, updated := 0, unchanged := 1 })) := by
  refine ⟨?_, ?_, ?_⟩
  · exact ((save_comments_per_record_cases (fun _ => false) []
      { new := 0, updated := 0, unchanged := 0 } goodPayload 1 rfl rfl).1 rfl).1
  · exact ((save_comments_per_record_cases (fun _ => false)
      [{ CommentService.mkNewComment goodPayload 1 with last_edited_time := some 2 }]
      { new := 0, updated := 0, unchanged := 0 }
      { goodPayload with last_edited_time := some 3, rich_text := ["hi there"] }
      1 rfl rfl).2.1
      { CommentService.mkNewComment goodPayload 1 with last_edited_time := some 2 }
      2 3 rfl rfl rfl (by decide)).1
  · exact (save_comments_per_record_cases (fun _ => false)
      [CommentService.mkNewComment goodPayload 1]
      { new := 0, updated := 0, unchanged := 0 } goodPayload 1 rfl rfl).2.2
      (CommentService.mkNewComment goodPayload 1) rfl (by trivial)

/-- C10: if the loop of `CommentService.save_comments_to_db` raises on any
record of the batch, the session is rolled back, so the returned store is
exactly the store from before the call and the counts are all zero with an
`"error"` key carrying the exception message; if the loop completes, the
working store with all the batch's changes is committed and returned
together with the accumulated counts.  No exception escapes either way. -/
theorem save_commits_or_rolls_back (failOn : String → Bool)
    (comments : List RawComment) (store : List Comment) :
    (∀ e, CommentService.processBatch failOn comments store
          { new := 0, updated := 0, unchanged := 0 } = Except.error e →
        CommentService.save_comments_to_db failOn comments store =
          (store, { new := 0, updated := 0, unchanged := 0, error := some e }))
    ∧ (∀ s' r, CommentService.processBatch failOn comments store
          { new := 0, updated := 0, unchanged := 0 } = Except.ok (s', r) →
        CommentService.save_comments_to_db failOn comments store = (s', r)) := by
  constructor
  · intro e he
    simp [CommentService.save_comments_to_db, he]
  · intro s' r hok
    simp [CommentService.save_comments_to_db, hok]

/-- C10 witness: a batch whose second record hits a transient store failure
is rolled back wholesale (the first record's pending insert is discarded);
a clean batch is committed with its accumulated counts. -/
theorem save_commits_or_rolls_back_witness :
    CommentService.save_comments_to_db (fun i => i == "cbad") [goodPayload, failingPayload] [] =
      ([], { new := 0, updated := 0, unchanged := 0, error := some "database error" })
    ∧ CommentService.save_comments_to_db (fun _ => false) [goodPayload] [] =
      ([CommentService.mkNewComment goodPayload 1],
        { new := 1, updated := 0, unchanged := 0 }) :=
  ⟨(save_commits_or_rolls_back _ _ _).1 _ rfl,
   (save_commits_or_rolls_back _ _ _).2 _ _ rfl⟩

/-- C5 counterexample: a transient store failure on the first record of the
batch aborts processing of the rest.  With the second record still pending,
the call returns zero counts (the partial results are discarded, not
accumulated) and an untouched store — yet the same second record, processed
on its own, is stored and counted as new.  This refutes the claim that the
batch continues past a per-record persistence failure with partial counts. -/
theorem batch_aborts_on_record_failure_cex :
    CommentService.save_comments_to_db (fun i => i == "cbad") [failingPayload, goodPayload] [] =
      ([], { new := 0, updated := 0, unchanged := 0, error := some "database error" })
    ∧ CommentService.save_comments_to_db (fun i => i == "cbad") [goodPayload] [] =
      ([CommentService.mkNewComment goodPayload 1],
        { new := 1, updated := 0, unchanged := 0 }) := by
  exact ⟨rfl, rfl⟩

/-- C5 amended: a failure while processing one record of the batch aborts
the remaining records — the exception is caught only at the batch boundary,
the whole transaction is rolled back (the store is as before the call,
partial counts are discarded), and `save_comments_to_db` returns counts
`(0, 0, 0)` with an `"error"` indicator; no exception escapes the call. -/
theorem batch_failure_rolls_back_all (failOn : String → Bool)
    (comments : List RawComment) (store : List Comment) (e : String)
    (h : CommentService.processBatch failOn comments store
        { new := 0, updated := 0, unchanged := 0 } = Except.error e) :
    CommentService.save_comments_to_db failOn comments store =
      (store, { new := 0, updated := 0, unchanged := 0, error := some e }) := by
  simp [CommentService.save_comments_to_db, h]

/-- C5 amended witness: a parse failure on the second record discards the
first record's pending insert and yields zero counts with the error. -/
theorem batch_failure_rolls_back_all_witness :
    CommentService.save_comments_to_db (fun _ => false) [goodPayload, unparseablePayload] [] =
      ([], { new := 0, updated := 0, unchanged := 0,
             error := some "Invalid isoformat string" }) :=
  batch_failure_rolls_back_all (fun _ => false) [goodPayload, unparseablePayload] [] _ rfl

/-- A payload with no parent reference and an empty rich-text list (the
shape the claim says must be rejected at ingestion). -/
def orphanPayload : RawComment :=
  { id := "c7", discussion_id := none, parent := none, rich_text := [],
    created_time := some 5, last_edited_time := none, created_by := none }

/-- A payload with a resolvable page parent but an empty rich-text list
(the claim says it must be rejected with `EmptyText` and not stored). -/
def emptyTextPayload : RawComment :=
  { id := "c7e", discussion_id := none, parent := some (ParentField.page "p1"),
    rich_text := [], created_time := some 5, last_edited_time := none,
    created_by := none }

namespace CommentService

/-- The NOT NULL column constraints of the `comments` table that the
service can actually violate (`database.py` lines 15-16): `parent_type`
and `parent_id` are declared `nullable=False`.  The database enforces
them when pending rows are flushed — at the next query's autoflush or at
`db.session.commit()` — raising `IntegrityError` for a violating row.
(`plain_text` and `created_time` are NOT NULL too, but the loop always
supplies a string — possibly empty, which is not NULL — and a parsed
datetime.) -/
def commitOk (store : List Comment) : Bool :=
  store.all (fun r => r.parent_type.isSome && r.parent_id.isSome)

theorem commitOk_append (l1 l2 : List Comment) :
    commitOk (l1 ++ l2) = (commitOk l1 && commitOk l2) := by
  simp [commitOk, List.all_append]

theorem commitOk_updateFirst (store : List Comment) (cid : String)
    (f : Comment → Comment)
    (hf : ∀ r, (f r).parent_type = r.parent_type ∧ (f r).parent_id = r.parent_id) :
    commitOk (updateFirst store cid f) = commitOk store := by
  induction store with
  | nil => rfl
  | cons a rest ih =>
      unfold updateFirst
      by_cases ha : (a.id == cid) = true
      · rw [if_pos ha]
        simp only [commitOk, List.all_cons, (hf a).1, (hf a).2]
      · rw [if_neg ha]
        simp only [commitOk, List.all_cons]
        simp only [commitOk] at ih
        rw [ih]

theorem processOne_commitOk_false {failOn : String → Bool} {store : List Comment}
    {counts : SaveResult} {c : RawComment} {s' : List Comment} {counts' : SaveResult}
    (h : processOne failOn store counts c = Except.ok (s', counts'))
    (hc : commitOk store = false) : commitOk s' = false := by
  obtain ⟨ct, hct, hfo, hcase⟩ := processOne_ok_inv h
  rcases hcase with ⟨hfind, hsx, -⟩ | ⟨ex, te, tc, hfind, hte, htc, hlt, hsx, -⟩ |
    ⟨ex, hfind, hnn, hsx, -⟩
  · subst hsx
    rw [commitOk_append, hc]
    rfl
  · subst hsx
    rw [commitOk_updateFirst store c.id (fun r =>
      { r with plain_text := plainTextOf c, last_edited_time := some tc,
               status := "updated" }) (fun r => ⟨rfl, rfl⟩)]
    exact hc
  · subst hsx
    exact hc

theorem processBatch_commitOk_false {failOn : String → Bool} {batch : List RawComment}
    {store : List Comment} {counts : SaveResult} {s' : List Comment} {counts' : SaveResult}
    (h : processBatch failOn batch store counts = Except.ok (s', counts'))
    (hc : commitOk store = false) : commitOk s' = false := by
  induction batch generalizing store counts with
  | nil =>
      unfold processBatch at h
      injection h with h1
      injection h1 with h2 h3
      subst h2
      exact hc
  | cons d rest ih =>
      unfold processBatch at h
      cases hpo : processOne failOn store counts d with
      | error e => rw [hpo] at h; cases h
      | ok p =>
          rw [hpo] at h
          exact ih h (processOne_commitOk_false hpo hc)

/-- `save_comments_to_db` refined with the database-enforced NOT NULL
constraints of `database.py`: when the loop itself succeeds but the
working store carries a row violating `commitOk` (an orphan insert), the
flush — at the next query's autoflush or at `db.session.commit()` —
raises `IntegrityError` inside the same `try`, so the call takes the same
rollback path as any other exception of the batch.  On stores and batches
whose rows all satisfy the constraints this coincides with
`save_comments_to_db`. -/
def save_comments_to_db_constrained (failOn : String → Bool)
    (comments : List RawComment) (store : List Comment) :
    List Comment × SaveResult :=
  match processBatch failOn comments store { new := 0, updated := 0, unchanged := 0 } with
  | Except.ok (store', counts) =>
      if commitOk store' then (store', counts)
      else (store, { new := 0, updated := 0, unchanged := 0,
                     error := some "IntegrityError: NOT NULL constraint failed" })
  | Except.error e =>
      (store, { new := 0, updated := 0, unchanged := 0, error := some e })

end CommentService

/-- C7 counterexample: no ingestion-time rejection exists.  A payload with
an empty rich-text list but a resolvable parent is stored (with empty
text, counted as new), contradicting rejection-with-`EmptyText`; a payload
with no resolvable parent is inserted with NULL parent fields and the
NOT NULL constraint then fails the flush/commit, aborting the whole batch
with a rollback — `goodPayload`, which processed alone is stored and
counted as new, is discarded with it — contradicting a per-record
`MissingParent` rejection after which the rest of the batch continues. -/
theorem no_ingestion_rejection_cex :
    CommentService.save_comments_to_db_constrained (fun _ => false) [emptyTextPayload] [] =
      ([{ id := "c7e", discussion_id := none, parent_type := some "page",
          parent_id := some "p1", plain_text := "", created_time := 5,
          last_edited_time := none, created_by_id := none, status := "new",
          processed_at := none }],
        { new := 1, updated := 0, unchanged := 0 })
    ∧ CommentService.save_comments_to_db_constrained (fun _ => false)
        [orphanPayload, goodPayload] [] =
      ([], { new := 0, updated := 0, unchanged := 0,
             error := some "IntegrityError: NOT NULL constraint failed" })
    ∧ CommentService.save_comments_to_db_constrained (fun _ => false) [goodPayload] [] =
      ([CommentService.mkNewComment goodPayload 1],
        { new := 1, updated := 0, unchanged := 0 }) := by
  exact ⟨rfl, rfl, rfl⟩

/-- C7 amended: there is no `MissingParent`/`EmptyText` rejection at
ingestion.  For a first-seen payload (fresh id, parseable `created_time`,
no transient store failure, constraint-satisfying store): (a) if its first
rich-text entry is absent or empty but a parent resolves, it is stored
anyway — empty text, status `'new'` — and counted as new; (b) if no parent
resolves, it is not individually rejected either: the loop inserts it with
NULL parent fields, the database NOT NULL constraint then fails the
flush/commit, and the entire batch is rolled back with zero counts and an
error — the record is never stored, but the rest of the batch is aborted
with it rather than continuing. -/
theorem malformed_payload_not_rejected (failOn : String → Bool)
    (store : List Comment) (c : RawComment) (ct : Nat)
    (hct : c.created_time = some ct) (hf : failOn c.id = false)
    (hnew : CommentService.findComment store c.id = none)
    (hcommit : CommentService.commitOk store = true) :
    (∀ pt pid, parentTypeAndId c = (some pt, some pid) → c.rich_text = [] →
        CommentService.save_comments_to_db_constrained failOn [c] store =
          (store ++ [{ id := c.id, discussion_id := c.discussion_id,
                       parent_type := some pt, parent_id := some pid, plain_text := "",
                       created_time := ct, last_edited_time := c.last_edited_time,
                       created_by_id := c.created_by, status := "new",
                       processed_at := none }],
            { new := 1, updated := 0, unchanged := 0 }))
    ∧ (c.parent = none →
        CommentService.processOne failOn store { new := 0, updated := 0, unchanged := 0 } c =
          Except.ok (store ++ [{ id := c.id, discussion_id := c.discussion_id,
                                 parent_type := none, parent_id := none,
                                 plain_text := plainTextOf c, created_time := ct,
                                 last_edited_time := c.last_edited_time,
                                 created_by_id := c.created_by, status := "new",
                                 processed_at := none }],
            { new := 1, updated := 0, unchanged := 0 })
        ∧ CommentService.commitOk (store ++ [{ id := c.id,
                                               discussion_id := c.discussion_id,
                                               parent_type := none, parent_id := none,
                                               plain_text := plainTextOf c,
                                               created_time := ct,
                                               last_edited_time := c.last_edited_time,
                                               created_by_id := c.created_by,
                                               status := "new",
                                               processed_at := none }]) = false
        ∧ ∀ rest, ∃ e,
            CommentService.save_comments_to_db_constrained failOn (c :: rest) store =
              (store, { new := 0, updated := 0, unchanged := 0, error := some e })) := by
  constructor
  · intro pt pid hpt htext
    have hmk : CommentService.mkNewComment c ct =
        { id := c.id, discussion_id := c.discussion_id,
          parent_type := some pt, parent_id := some pid, plain_text := "",
          created_time := ct, last_edited_time := c.last_edited_time,
          created_by_id := c.created_by, status := "new", processed_at := none } := by
      unfold CommentService.mkNewComment plainTextOf
      rw [hpt, htext]
    have hpo : CommentService.processOne failOn store
        { new := 0, updated := 0, unchanged := 0 } c =
        Except.ok (store ++ [CommentService.mkNewComment c ct],
          { new := 1, updated := 0, unchanged := 0 }) := by
      simp [CommentService.processOne, hct, hf, hnew]
    have hco : CommentService.commitOk (store ++ [CommentService.mkNewComment c ct]) = true := by
      rw [CommentService.commitOk_append, hcommit, hmk]
      simp [CommentService.commitOk]
    rw [← hmk]
    unfold CommentService.save_comments_to_db_constrained
    have hpb : CommentService.processBatch failOn [c] store
        { new := 0, updated := 0, unchanged := 0 } =
        Except.ok (store ++ [CommentService.mkNewComment c ct],
          { new := 1, updated := 0, unchanged := 0 }) := by
      unfold CommentService.processBatch
      rw [hpo]
      rfl
    rw [hpb]
    simp [hco]
  · intro hparent
    have hmk : CommentService.mkNewComment c ct =
        { id := c.id, discussion_id := c.discussion_id,
          parent_type := none, parent_id := none, plain_text := plainTextOf c,
          created_time := ct, last_edited_time := c.last_edited_time,
          created_by_id := c.created_by, status := "new", processed_at := none } := by
      unfold CommentService.mkNewComment parentTypeAndId
      rw [hparent]
    have hpo : CommentService.processOne failOn store
        { new := 0, updated := 0, unchanged := 0 } c =
        Except.ok (store ++ [CommentService.mkNewComment c ct],
          { new := 1, updated := 0, unchanged := 0 }) := by
      simp [CommentService.processOne, hct, hf, hnew]
    have hco : CommentService.commitOk (store ++ [CommentService.mkNewComment c ct]) = false := by
      rw [CommentService.commitOk_append, hmk]
      simp [CommentService.commitOk]
    refine ⟨by rw [← hmk]; exact hpo, by rw [← hmk]; exact hco, ?_⟩
    intro rest
    cases hpb : CommentService.processBatch failOn rest
        (store ++ [CommentService.mkNewComment c ct])
        { new := 1, updated := 0, unchanged := 0 } with
    | error e =>
        refine ⟨e, ?_⟩
        have hfull : CommentService.processBatch failOn (c :: rest) store
            { new := 0, updated := 0, unchanged := 0 } = Except.error e := by
          unfold CommentService.processBatch
          rw [hpo]
          exact hpb
        unfold CommentService.save_comments_to_db_constrained
        rw [hfull]
    | ok p =>
        obtain ⟨s', counts'⟩ := p
        refine ⟨"IntegrityError: NOT NULL constraint failed", ?_⟩
        have hfalse : CommentService.commitOk s' = false :=
          CommentService.processBatch_commitOk_false hpb hco
        have hfull : CommentService.processBatch failOn (c :: rest) store
            { new := 0, updated := 0, unchanged := 0 } = Except.ok (s', counts') := by
          unfold CommentService.processBatch
          rw [hpo]
          exact hpb
        unfold CommentService.save_comments_to_db_constrained
        rw [hfull]
        simp [hfalse]

/-- C7 amended witness: the empty-text payload is committed and counted as
new, while a batch led by the orphan payload — whose insert works but
fails the NOT NULL check — aborts wholesale with an error. -/
theorem malformed_payload_not_rejected_witness :
    CommentService.save_comments_to_db_constrained (fun _ => false) [emptyTextPayload] [] =
      ([{ id := "c7e", discussion_id := none, parent_type := some "page",
          parent_id := some "p1", plain_text := "", created_time := 5,
          last_edited_time := none, created_by_id := none, status := "new",
          processed_at := none }],
        { new := 1, updated := 0, unchanged := 0 })
    ∧ (CommentService.processOne (fun _ => false) []
          { new := 0, updated := 0, unchanged := 0 } orphanPayload =
        Except.ok ([{ id := "c7", discussion_id := none, parent_type := none,
                      parent_id := none, plain_text := "", created_time := 5,
                      last_edited_time := none, created_by_id := none, status := "new",
                      processed_at := none }],
          { new := 1, updated := 0, unchanged := 0 })
        ∧ CommentService.commitOk [{ id := "c7", discussion_id := none,
                                     parent_type := none, parent_id := none,
                                     plain_text := "", created_time := 5,
                                     last_edited_time := none, created_by_id := none,
                                     status := "new", processed_at := none }] = false
        ∧ ∃ e, CommentService.save_comments_to_db_constrained (fun _ => false)
            [orphanPayload, goodPayload] [] =
            ([], { new := 0, updated := 0, unchanged := 0, error := some e })) := by
  constructor
  · exact (malformed_payload_not_rejected (fun _ => false) [] emptyTextPayload 5
      rfl rfl rfl rfl).1 "page" "p1" rfl rfl
  · have h := (malformed_payload_not_rejected (fun _ => false) [] orphanPayload 5
      rfl rfl rfl rfl).2 rfl
    exact ⟨h.1, h.2.1, h.2.2 [goodPayload]⟩

namespace CommentService

/-- A record is "settled" against a store: a row with its id exists and the
incoming edit stamp is not strictly newer, so the loop body of
`save_comments_to_db` classifies it as unchanged and leaves the store as
it is. -/
def settled (store : List Comment) (c : RawComment) : Prop :=
  ∃ ex, findComment store c.id = some ex ∧ notNewer ex.last_edited_time c.last_edited_time

theorem findComment_append_of_some {store : List Comment} {cid : String} {ex : Comment}
    (l : List Comment) (h : findComment store cid = some ex) :
    findComment (store ++ l) cid = some ex := by
  simp only [findComment, List.find?_append] at h ⊢
  rw [h]
  rfl

theorem processOne_unchanged_of_settled {failOn : String → Bool} {store : List Comment}
    {counts : SaveResult} {c : RawComment} {ct : Nat}
    (hct : c.created_time = some ct) (hfo : failOn c.id = false)
    (hs : settled store c) :
    processOne failOn store counts c =
      Except.ok (store, { counts with unchanged := counts.unchanged + 1 }) := by
  obtain ⟨ex, hfind, hnn⟩ := hs
  unfold notNewer at hnn
  cases hte : ex.last_edited_time with
  | none => simp [processOne, hct, hfo, hfind, hte]
  | some te =>
    cases htc : c.last_edited_time with
    | none => simp [processOne, hct, hfo, hfind, hte, htc]
    | some tc =>
      rw [hte, htc] at hnn
      simp [processOne, hct, hfo, hfind, hte, htc, hnn]

theorem processOne_settles {failOn : String → Bool} {store : List Comment}
    {counts : SaveResult} {c : RawComment} {s' : List Comment} {counts' : SaveResult}
    (h : processOne failOn store counts c = Except.ok (s', counts')) :
    settled s' c := by
  obtain ⟨ct, hct, hfo, hcase⟩ := processOne_ok_inv h
  rcases hcase with ⟨hfind, hsx, -⟩ | ⟨ex, te, tc, hfind, hte, htc, hlt, hsx, -⟩ |
    ⟨ex, hfind, hnn, hsx, -⟩
  · subst hsx
    refine ⟨mkNewComment c ct, findComment_append_right _ hfind rfl, ?_⟩
    show notNewer c.last_edited_time c.last_edited_time
    cases c.last_edited_time with
    | none => trivial
    | some t => exact Nat.lt_irrefl t
  · subst hsx
    refine ⟨_, findComment_updateFirst_self _ (fun r => rfl) hfind, ?_⟩
    show notNewer (some tc) c.last_edited_time
    rw [htc]
    exact Nat.lt_irrefl tc
  · subst hsx
    exact ⟨ex, hfind, hnn⟩

theorem processOne_preserves_settled {failOn : String → Bool} {store : List Comment}
    {counts : SaveResult} {d : RawComment} {s' : List Comment} {counts' : SaveResult}
    (c : RawComment) (h : processOne failOn store counts d = Except.ok (s', counts'))
    (hs : settled store c) : settled s' c := by
  obtain ⟨ex, hfind, hnn⟩ := hs
  obtain ⟨ct, hct, hfo, hcase⟩ := processOne_ok_inv h
  rcases hcase with ⟨hfindd, hsx, -⟩ | ⟨exd, te, tc, hfindd, hte, htc, hlt, hsx, -⟩ |
    ⟨exd, hfindd, hnnd, hsx, -⟩
  · -- insert of d: the row at c.id is still found in the left part
    subst hsx
    exact ⟨ex, findComment_append_of_some _ hfind, hnn⟩
  · -- in-place update of d
    subst hsx
    by_cases hid : d.id = c.id
    · -- same id: the lookups agree, and the new stamp is even larger
      rw [hid] at hfindd ⊢
      rw [hfind] at hfindd
      injection hfindd with hexd
      subst hexd
      refine ⟨_, findComment_updateFirst_self _ (fun r => rfl) hfind, ?_⟩
      show notNewer (some tc) c.last_edited_time
      unfold notNewer at hnn ⊢
      rw [hte] at hnn
      cases hcl : c.last_edited_time with
      | none => trivial
      | some tcc =>
          rw [hcl] at hnn
          intro hlt2
          exact hnn (Nat.lt_trans hlt hlt2)
    · exact ⟨ex, by
        rw [findComment_updateFirst_ne (fun r =>
          { r with plain_text := plainTextOf d, last_edited_time := some tc,
                   status := "updated" }) (fun r => rfl) hid]
        exact hfind, hnn⟩
  · subst hsx
    exact ⟨ex, hfind, hnn⟩

theorem processBatch_preserves_settled {failOn : String → Bool} {batch : List RawComment}
    {store : List Comment} {counts : SaveResult} {s' : List Comment} {counts' : SaveResult}
    (c : RawComment) (h : processBatch failOn batch store counts = Except.ok (s', counts'))
    (hs : settled store c) : settled s' c := by
  induction batch generalizing store counts with
  | nil =>
      unfold processBatch at h
      injection h with h1
      injection h1 with h2 h3
      subst h2
      exact hs
  | cons d rest ih =>
      unfold processBatch at h
      cases hpo : processOne failOn store counts d with
      | error e => rw [hpo] at h; cases h
      | ok p =>
          rw [hpo] at h
          exact ih h (processOne_preserves_settled c hpo hs)

theorem processBatch_settles_all {failOn : String → Bool} {batch : List RawComment}
    {store : List Comment} {counts : SaveResult} {s' : List Comment} {counts' : SaveResult}
    (h : processBatch failOn batch store counts = Except.ok (s', counts')) :
    ∀ c ∈ batch, settled s' c ∧ failOn c.id = false ∧ ∃ ct, c.created_time = some ct := by
  induction batch generalizing store counts with
  | nil => intro c hc; cases hc
  | cons d rest ih =>
      intro c hc
      unfold processBatch at h
      cases hpo : processOne failOn store counts d with
      | error e => rw [hpo] at h; cases h
      | ok p =>
          rw [hpo] at h
          rcases List.mem_cons.mp hc with rfl | hmem
          · obtain ⟨ct, hct, hfo, -⟩ := processOne_ok_inv hpo
            exact ⟨processBatch_preserves_settled c h (processOne_settles hpo), hfo, ct, hct⟩
          · exact ih h c hmem

theorem processBatch_of_all_settled {failOn : String → Bool} {batch : List RawComment}
    {store : List Comment} (counts : SaveResult)
    (h : ∀ c ∈ batch, settled store c ∧ failOn c.id = false ∧ ∃ ct, c.created_time = some ct) :
    processBatch failOn batch store counts =
      Except.ok (store, { counts with unchanged := counts.unchanged + batch.length }) := by
  induction batch generalizing counts with
  | nil => simp [processBatch]
  | cons d rest ih =>
      obtain ⟨hs, hfo, ct, hct⟩ := h d (List.mem_cons_self d rest)
      rw [processBatch, processOne_unchanged_of_settled hct hfo hs]
      show processBatch failOn rest store { counts with unchanged := counts.unchanged + 1 } = _
      rw [ih _ (fun c hc => h c (List.mem_cons_of_mem _ hc))]
      simp only [List.length_cons, Except.ok.injEq, Prod.mk.injEq, SaveResult.mk.injEq,
        true_and]
      exact ⟨by omega, trivial⟩

end CommentService

/-- C3: reconcile is idempotent.  If a call to `save_comments_to_db`
committed (no error), then running the identical batch again classifies
every record as unchanged: the second call returns new and updated counts
of zero, and it returns the very same store, so in particular the stored
status of every record the first call counted as unchanged (and of every
other record) is left exactly as it was. -/
theorem save_comments_idempotent (failOn : String → Bool) (batch : List RawComment)
    (store store₁ : List Comment) (r₁ : SaveResult)
    (h : CommentService.save_comments_to_db failOn batch store = (store₁, r₁))
    (hok : r₁.error = none) :
    CommentService.save_comments_to_db failOn batch store₁ =
      (store₁, { new := 0, updated := 0, unchanged := batch.length, error := none }) := by
  unfold CommentService.save_comments_to_db at h
  cases hpb : CommentService.processBatch failOn batch store
      { new := 0, updated := 0, unchanged := 0 } with
  | error e =>
      rw [hpb] at h
      injection h with h1 h2
      rw [← h2] at hok
      cases hok
  | ok p =>
      obtain ⟨s₁, counts₁⟩ := p
      rw [hpb] at h
      injection h with h1 h2
      subst h1
      have hall := CommentService.processBatch_settles_all hpb
      unfold CommentService.save_comments_to_db
      rw [CommentService.processBatch_of_all_settled
        { new := 0, updated := 0, unchanged := 0 } hall]
      simp

/-- C3 witness: re-running the singleton batch `[goodPayload]` against the
store produced by its first run yields `(0, 0, 1)` and the same store. -/
theorem save_comments_idempotent_witness :
    CommentService.save_comments_to_db (fun _ => false) [goodPayload]
        [CommentService.mkNewComment goodPayload 1] =
      ([CommentService.mkNewComment goodPayload 1],
        { new := 0, updated := 0, unchanged := 1, error := none }) :=
  save_comments_idempotent (fun _ => false) [goodPayload] []
    [CommentService.mkNewComment goodPayload 1]
    { new := 1, updated := 0, unchanged := 0 } rfl rfl

namespace CommentService

theorem processOne_nodup {failOn : String → Bool} {store : List Comment}
    {counts : SaveResult} {c : RawComment} {s' : List Comment} {counts' : SaveResult}
    (h : processOne failOn store counts c = Except.ok (s', counts'))
    (hn : (store.map Comment.id).Nodup) : (s'.map Comment.id).Nodup := by
  obtain ⟨ct, hct, hfo, hcase⟩ := processOne_ok_inv h
  rcases hcase with ⟨hfind, hsx, -⟩ | ⟨ex, te, tc, hfind, hte, htc, hlt, hsx, -⟩ |
    ⟨ex, hfind, hnn, hsx, -⟩
  · subst hsx
    rw [List.map_append]
    refine List.Nodup.append hn (List.nodup_singleton _) ?_
    intro a ha hb
    simp only [List.map_cons, List.map_nil, List.mem_singleton] at hb
    obtain ⟨r, hr, hrid⟩ := List.mem_map.mp ha
    exact findComment_eq_none.mp hfind r hr (by rw [hrid, hb]; rfl)
  · subst hsx
    rw [ids_updateFirst (fun r =>
      { r with plain_text := plainTextOf c, last_edited_time := some tc,
               status := "updated" }) (fun r => rfl)]
    exact hn
  · subst hsx
    exact hn

theorem processBatch_nodup {failOn : String → Bool} {batch : List RawComment}
    {store : List Comment} {counts : SaveResult} {s' : List Comment} {counts' : SaveResult}
    (h : processBatch failOn batch store counts = Except.ok (s', counts'))
    (hn : (store.map Comment.id).Nodup) : (s'.map Comment.id).Nodup := by
  induction batch generalizing store counts with
  | nil =>
      unfold processBatch at h
      injection h with h1
      injection h1 with h2 h3
      subst h2
      exact hn
  | cons d rest ih =>
      unfold processBatch at h
      cases hpo : processOne failOn store counts d with
      | error e => rw [hpo] at h; cases h
      | ok p =>
          rw [hpo] at h
          exact ih h (processOne_nodup hpo hn)

theorem save_comments_to_db_nodup (failOn : String → Bool) (comments : List RawComment)
    (store : List Comment) (hn : (store.map Comment.id).Nodup) :
    (((save_comments_to_db failOn comments store).1).map Comment.id).Nodup := by
  unfold save_comments_to_db
  cases hpb : processBatch failOn comments store
      { new := 0, updated := 0, unchanged := 0 } with
  | error e => exact hn
  | ok p =>
      obtain ⟨s₁, counts₁⟩ := p
      exact processBatch_nodup hpb hn

end CommentService

/-- C4: id uniqueness is an invariant of reconcile.  Starting from any
store whose row ids are pairwise distinct, applying any sequence of
`save_comments_to_db` batches never produces two rows with the same id:
a re-ingested id is updated in place (or left untouched), never inserted
as a duplicate row, and a failed batch is rolled back. -/
theorem store_ids_nodup_preserved (failOn : String → Bool)
    (batches : List (List RawComment)) (store : List Comment)
    (h : (store.map Comment.id).Nodup) :
    (((batches.foldl
        (fun s b => (CommentService.save_comments_to_db failOn b s).1) store)).map
      Comment.id).Nodup := by
  induction batches generalizing store with
  | nil => exact h
  | cons b rest ih =>
      exact ih _ (CommentService.save_comments_to_db_nodup failOn b store h)

/-- C4 witness: two successive batches that both mention `goodPayload`
leave a store with distinct ids. -/
theorem store_ids_nodup_preserved_witness :
    ((([[goodPayload], [goodPayload, orphanPayload]].foldl
        (fun s b => (CommentService.save_comments_to_db (fun _ => false) b s).1) [])).map
      Comment.id).Nodup :=
  store_ids_nodup_preserved (fun _ => false) [[goodPayload], [goodPayload, orphanPayload]] []
    (by decide)

namespace App

/-- Parent id extraction in `app.py` (lines 122-127 and 401-407): the
`page_id` or `block_id` of the parent, `None` otherwise. -/
def parent_id_of (c : RawComment) : Option String :=
  match c.parent with
  | some (ParentField.page i) => some i
  | some (ParentField.block i) => some i
  | _ => none

/-- Python truthiness of the extracted parent id (`if not parent_id`):
`None` and the empty string are both falsy. -/
def parentIdTruthy (c : RawComment) : Prop :=
  (parent_id_of c).getD "" ≠ ""

instance (c : RawComment) : Decidable (parentIdTruthy c) := by
  unfold parentIdTruthy
  infer_instance

/-- The effect of `process_comment_async` (`app.py` lines 101-300) on the
global in-memory `processed_comments` set, modelled as a list of ids.
`collabOk` is the outcome of the collaborator calls (thread creation,
response generation, reply posting): when any of them raises, the
`except` clause at lines 299-300 only logs — nothing is recorded.  A
comment with a falsy parent id or empty text returns early (line 130),
also recording nothing.  Only after a successful reply is the comment id
added to the set (line 296). -/
def process_comment_async (processed : List String) (c : RawComment)
    (collabOk : Bool) : List String :=
  if (parent_id_of c).getD "" = "" ∨ plainTextOf c = "" then processed
  else if collabOk then c.id :: processed else processed

/-- `get_unprocessed_comments` (`app.py` lines 370-387): keep the comments
whose id is truthy and not in the processed set. -/
def get_unprocessed_comments (comments : List RawComment) (processed : List String) :
    List RawComment :=
  comments.filter (fun c => !(c.id == "") && !(processed.contains c.id))

end App

/-- A raw comment as fetched in a poll cycle (C6 counterexample input):
page parent, non-empty text. -/
def polledPayload : RawComment :=
  { id := "c1", discussion_id := some "d1", parent := some (ParentField.page "p1"),
    rich_text := ["hi"], created_time := some 1, last_edited_time := none,
    created_by := none }

/-- C6 counterexample: handling `polledPayload` with a failing collaborator
call records nothing — the processed set stays empty (there is no `'error'`
status or `processedAt` anywhere in this flow), and the very next selection
returns the same comment again instead of nothing. -/
theorem failed_comment_reselected_cex :
    App.process_comment_async [] polledPayload false = []
    ∧ App.get_unprocessed_comments [polledPayload]
        (App.process_comment_async [] polledPayload false) = [polledPayload] := by
  exact ⟨rfl, rfl⟩

/-- C6 amended: `app.py` keeps no error status at all.  When the
collaborator call fails, `process_comment_async` catches the exception and
records nothing: the comment id is not added to the in-memory processed
set, so every later poll cycle selects and retries the comment again.
Only a successful reply adds the id to the set, after which the comment is
never selected again (until the in-memory set is lost, e.g. on restart). -/
theorem processed_set_only_on_success (processed : List String) (c : RawComment)
    (comments : List RawComment) :
    App.process_comment_async processed c false = processed
    ∧ (App.parentIdTruthy c → plainTextOf c ≠ "" →
        App.process_comment_async processed c true = c.id :: processed
        ∧ ∀ d ∈ App.get_unprocessed_comments comments (c.id :: processed), d.id ≠ c.id) := by
  constructor
  · unfold App.process_comment_async
    split
    · rfl
    · rfl
  · intro hp ht
    unfold App.parentIdTruthy at hp
    constructor
    · unfold App.process_comment_async
      rw [if_neg (by intro hor; rcases hor with h1 | h2; exact hp h1; exact ht h2)]
      rfl
    · intro d hd
      unfold App.get_unprocessed_comments at hd
      obtain ⟨-, hmem⟩ := List.mem_filter.mp hd
      intro hde
      have hcontains : (c.id :: processed).contains c.id = true := by
        simp [List.contains_cons]
      rw [hde, hcontains] at hmem
      simp at hmem

/-- C6 amended witness: after a failure the comment is selected again;
after a success it is filtered out. -/
theorem processed_set_only_on_success_witness :
    App.process_comment_async [] polledPayload false = []
    ∧ (App.process_comment_async [] polledPayload true = ["c1"]
        ∧ ∀ d ∈ App.get_unprocessed_comments [polledPayload] ["c1"], d.id ≠ "c1") :=
  ⟨(processed_set_only_on_success [] polledPayload [polledPayload]).1,
   (processed_set_only_on_success [] polledPayload [polledPayload]).2
     (by decide) (by decide)⟩

namespace App

/-- Group key (`app.py` line 415): the discussion id, defaulting to
`"unthreaded"` when the payload carries none. -/
def groupKeyOf (c : RawComment) : String := c.discussion_id.getD "unthreaded"

/-- Ordering of the Python sort keys `x.get("created_time", "")`
(`app.py` line 431): the empty-string default sorts before every real
timestamp; real timestamps compare chronologically. -/
def timeKeyLe (a b : Option Nat) : Prop :=
  match a, b with
  | none, _ => True
  | some _, none => False
  | some x, some y => x ≤ y

instance : DecidableRel timeKeyLe := fun a b => by
  unfold timeKeyLe
  cases a <;> cases b <;> infer_instance

/-- Comparison of two comments by their `created_time` sort key. -/
def createdLe (a b : RawComment) : Prop :=
  timeKeyLe a.created_time b.created_time

instance : DecidableRel createdLe := fun a b => by
  unfold createdLe
  infer_instance

instance : IsTotal RawComment createdLe :=
  ⟨by
    intro a b
    unfold createdLe timeKeyLe
    cases ha : a.created_time with
    | none => exact Or.inl trivial
    | some x =>
        cases hb : b.created_time with
        | none => exact Or.inr trivial
        | some y => exact Nat.le_total x y⟩

instance : IsTrans RawComment createdLe :=
  ⟨by
    intro a b c hab hbc
    unfold createdLe timeKeyLe at hab hbc ⊢
    cases hat : a.created_time with
    | none => trivial
    | some x =>
        rw [hat] at hab
        cases hbt : b.created_time with
        | none => rw [hbt] at hab; exact hab.elim
        | some y =>
            rw [hbt] at hab hbc
            cases hct : c.created_time with
            | none => rw [hct] at hbc; exact hbc.elim
            | some z =>
                rw [hct] at hbc
                exact Nat.le_trans hab hbc⟩

/-- Python's stable `sorted(key=lambda x: x.get("created_time", ""))`
(`app.py` lines 429-432), modelled by stable insertion sort under
`createdLe`. -/
def sortByCreatedTime (l : List RawComment) : List RawComment :=
  List.insertionSort createdLe l

theorem mem_sortByCreatedTime {c : RawComment} {l : List RawComment} :
    c ∈ sortByCreatedTime l ↔ c ∈ l :=
  (List.perm_insertionSort createdLe l).mem_iff

theorem pairwise_sortByCreatedTime (l : List RawComment) :
    List.Pairwise createdLe (sortByCreatedTime l) :=
  List.sorted_insertionSort createdLe l

/-- Append a comment at the end of its discussion group, creating the
group at the end when absent (`organized[parent_id][discussion_id].append`,
insertion-ordered like a Python dict). -/
def appendGroup (gs : List (String × List RawComment)) (k : String) (c : RawComment) :
    List (String × List RawComment) :=
  match gs with
  | [] => [(k, [c])]
  | (k', l) :: rest =>
      if k' = k then (k', l ++ [c]) :: rest else (k', l) :: appendGroup rest k c

/-- Append a comment under its parent and discussion in the nested
insertion-ordered dict-of-dicts. -/
def addComment (org : List (String × List (String × List RawComment)))
    (p k : String) (c : RawComment) :
    List (String × List (String × List RawComment)) :=
  match org with
  | [] => [(p, [(k, [c])])]
  | (p', gs) :: rest =>
      if p' = p then (p', appendGroup gs k c) :: rest
      else (p', gs) :: addComment rest p k c

/-- Loop body of the grouping pass (`app.py` lines 400-424): skip a comment
whose extracted parent id is falsy, otherwise append it under
`(parent_id, discussion_id-or-"unthreaded")`. -/
def organizeStep (org : List (String × List (String × List RawComment)))
    (c : RawComment) : List (String × List (String × List RawComment)) :=
  if (parent_id_of c).getD "" = "" then org
  else addComment org ((parent_id_of c).getD "") (groupKeyOf c) c

/-- The grouping pass: fold the loop body over the batch, starting from an
empty structure. -/
def organizePass (comments : List RawComment) :
    List (String × List (String × List RawComment)) :=
  comments.foldl organizeStep []

/-- `organize_comments_by_parent_and_thread` (`app.py` lines 389-434):
group by parent and thread, then sort every discussion group by
`created_time`. -/
def organize_comments_by_parent_and_thread (comments : List RawComment) :
    List (String × List (String × List RawComment)) :=
  (organizePass comments).map (fun pg =>
    (pg.1, pg.2.map (fun g => (g.1, sortByCreatedTime g.2))))

/-- `organized[p][d]` read out of the inner dict: the group list, `[]` when
absent. -/
def findGroup (gs : List (String × List RawComment)) (d : String) : List RawComment :=
  match gs with
  | [] => []
  | (k, l) :: rest => if k = d then l else findGroup rest d

/-- `organized[p][d]` (the spec's `listGroup`): the discussion group stored
under parent `p` and thread key `d`, `[]` when absent. -/
def lookupGroup (org : List (String × List (String × List RawComment)))
    (p d : String) : List RawComment :=
  match org with
  | [] => []
  | (p', gs) :: rest => if p' = p then findGroup gs d else lookupGroup rest p d

theorem findGroup_appendGroup (gs : List (String × List RawComment)) (k d : String)
    (c : RawComment) :
    findGroup (appendGroup gs k c) d =
      if k = d then findGroup gs d ++ [c] else findGroup gs d := by
  induction gs with
  | nil =>
      by_cases h1 : k = d
      · simp [appendGroup, findGroup, h1]
      · simp [appendGroup, findGroup, h1]
  | cons hd rest ih =>
      obtain ⟨k', l⟩ := hd
      by_cases hk : k' = k
      · subst hk
        by_cases h2 : k' = d
        · simp [appendGroup, findGroup, h2]
        · simp [appendGroup, findGroup, h2]
      · by_cases h2 : k' = d
        · have h3 : ¬ k = d := fun h => hk (h2.trans h.symm)
          have h4 : ¬ d = k := fun h => hk (h2.trans h)
          simp [appendGroup, findGroup, hk, h2, h3, h4]
        · simp [appendGroup, findGroup, hk, h2, ih]

theorem lookupGroup_addComment (org : List (String × List (String × List RawComment)))
    (p k : String) (c : RawComment) (q d : String) :
    lookupGroup (addComment org p k c) q d =
      if p = q ∧ k = d then lookupGroup org q d ++ [c] else lookupGroup org q d := by
  induction org with
  | nil =>
      by_cases h1 : p = q
      · subst h1
        by_cases h2 : k = d
        · simp [addComment, lookupGroup, findGroup, h2]
        · simp [addComment, lookupGroup, findGroup, h2]
      · simp [addComment, lookupGroup, h1]
  | cons hd rest ih =>
      obtain ⟨p₀, gs⟩ := hd
      by_cases hp : p₀ = p
      · subst hp
        by_cases h1 : p₀ = q
        · subst h1
          simp only [addComment, if_pos rfl, lookupGroup, findGroup_appendGroup]
          by_cases h2 : k = d
          · simp [h2]
          · simp [h2]
        · simp [addComment, lookupGroup, h1]
      · by_cases h1 : p₀ = q
        · subst h1
          have h3 : ¬ (p = p₀ ∧ k = d) := fun h => hp h.1.symm
          simp [addComment, lookupGroup, hp, h3]
        · simp [addComment, lookupGroup, hp, h1, ih]

theorem mem_lookupGroup_organizeStep
    (org : List (String × List (String × List RawComment)))
    (x c : RawComment) (p d : String) :
    c ∈ lookupGroup (organizeStep org x) p d ↔
      c ∈ lookupGroup org p d ∨
        (c = x ∧ (parent_id_of x).getD "" = p ∧ p ≠ "" ∧ groupKeyOf x = d) := by
  unfold organizeStep
  by_cases hx : (parent_id_of x).getD "" = ""
  · rw [if_pos hx]
    constructor
    · exact Or.inl
    · rintro (h | ⟨rfl, hp, hne, hk⟩)
      · exact h
      · exact (hne (hp.symm.trans hx)).elim
  · rw [if_neg hx, lookupGroup_addComment]
    by_cases hc : (parent_id_of x).getD "" = p ∧ groupKeyOf x = d
    · rw [if_pos hc, List.mem_append, List.mem_singleton]
      constructor
      · rintro (h | rfl)
        · exact Or.inl h
        · exact Or.inr ⟨rfl, hc.1, by rw [← hc.1]; exact hx, hc.2⟩
      · rintro (h | ⟨rfl, hp, hne, hk⟩)
        · exact Or.inl h
        · exact Or.inr rfl
    · rw [if_neg hc]
      constructor
      · exact Or.inl
      · rintro (h | ⟨rfl, hp, hne, hk⟩)
        · exact h
        · exact (hc ⟨hp, hk⟩).elim

theorem mem_lookupGroup_foldl (comments : List RawComment)
    (org : List (String × List (String × List RawComment)))
    (p d : String) (c : RawComment) :
    c ∈ lookupGroup (comments.foldl organizeStep org) p d ↔
      c ∈ lookupGroup org p d ∨
        (c ∈ comments ∧ (parent_id_of c).getD "" = p ∧ p ≠ "" ∧ groupKeyOf c = d) := by
  induction comments generalizing org with
  | nil => simp
  | cons x rest ih =>
      rw [List.foldl_cons, ih, mem_lookupGroup_organizeStep]
      constructor
      · rintro ((h | ⟨rfl, hrest⟩) | ⟨hmem, hrest⟩)
        · exact Or.inl h
        · exact Or.inr ⟨List.mem_cons_self _ _, hrest⟩
        · exact Or.inr ⟨List.mem_cons_of_mem _ hmem, hrest⟩
      · rintro (h | ⟨hmem, hrest⟩)
        · exact Or.inl (Or.inl h)
        · rcases List.mem_cons.mp hmem with rfl | hmem2
          · exact Or.inl (Or.inr ⟨rfl, hrest⟩)
          · exact Or.inr ⟨hmem2, hrest⟩

theorem findGroup_map_sort (gs : List (String × List RawComment)) (d : String) :
    findGroup (gs.map (fun g => (g.1, sortByCreatedTime g.2))) d =
      sortByCreatedTime (findGroup gs d) := by
  induction gs with
  | nil => rfl
  | cons hd rest ih =>
      obtain ⟨k, l⟩ := hd
      simp only [List.map_cons, findGroup]
      by_cases hk : k = d
      · rw [if_pos hk, if_pos hk]
      · rw [if_neg hk, if_neg hk]
        exact ih

theorem lookupGroup_map_sort (org : List (String × List (String × List RawComment)))
    (p d : String) :
    lookupGroup (org.map (fun pg =>
        (pg.1, pg.2.map (fun g => (g.1, sortByCreatedTime g.2))))) p d =
      sortByCreatedTime (lookupGroup org p d) := by
  induction org with
  | nil => rfl
  | cons hd rest ih =>
      obtain ⟨p₀, gs⟩ := hd
      simp only [List.map_cons, lookupGroup]
      by_cases hp : p₀ = p
      · rw [if_pos hp, if_pos hp]
        exact findGroup_map_sort gs d
      · rw [if_neg hp, if_neg hp]
        exact ih

end App

/-- Scenario comment A: thread `d1` under page `p1`, created at `t = 1`. -/
def commentA : RawComment :=
  { id := "A", discussion_id := some "d1", parent := some (ParentField.page "p1"),
    rich_text := ["a"], created_time := some 1, last_edited_time := none,
    created_by := none }

/-- Scenario comment B: thread `d1` under page `p1`, created at `t = 2`. -/
def commentB : RawComment :=
  { id := "B", discussion_id := some "d1", parent := some (ParentField.page "p1"),
    rich_text := ["b"], created_time := some 2, last_edited_time := none,
    created_by := none }

/-- Scenario comment C: unthreaded, same parent, created at `t = 3`. -/
def commentC : RawComment :=
  { id := "C", discussion_id := none, parent := some (ParentField.page "p1"),
    rich_text := ["c"], created_time := some 3, last_edited_time := none,
    created_by := none }

/-- C8: `organize_comments_by_parent_and_thread` groups comments by
`(parentId, discussionId-or-"unthreaded")` and sorts each group by
`createdAt` ascending: a comment belongs to the group `(p, d)` exactly
when its extracted parent id is the (truthy) `p` and its thread key is
`d`, and every group is pairwise ordered by the created-time key.  In
particular, for `A(d1, t=1)`, `B(d1, t=2)` and unthreaded `C(t=3)` under
the same parent, the group `(p1, d1)` is exactly `[A, B]` in that order,
and `C` is not in it. -/
theorem organize_groups_and_sorts :
    (∀ (comments : List RawComment) (p d : String) (c : RawComment),
        c ∈ App.lookupGroup (App.organize_comments_by_parent_and_thread comments) p d ↔
          c ∈ comments ∧ (App.parent_id_of c).getD "" = p ∧ p ≠ "" ∧ App.groupKeyOf c = d)
    ∧ (∀ (comments : List RawComment) (p d : String),
        List.Pairwise App.createdLe
          (App.lookupGroup (App.organize_comments_by_parent_and_thread comments) p d))
    ∧ App.lookupGroup (App.organize_comments_by_parent_and_thread
        [commentA, commentB, commentC]) "p1" "d1" = [commentA, commentB] := by
  refine ⟨?_, ?_, ?_⟩
  · intro comments p d c
    unfold App.organize_comments_by_parent_and_thread App.organizePass
    rw [App.lookupGroup_map_sort, App.mem_sortByCreatedTime, App.mem_lookupGroup_foldl]
    simp [App.lookupGroup]
  · intro comments p d
    unfold App.organize_comments_by_parent_and_thread
    rw [App.lookupGroup_map_sort]
    exact App.pairwise_sortByCreatedTime _
  · rfl
